import Mathlib

/-!
# Verification of the Search & Analytics Engine of the movie-catalog program

A shallow embedding of the core of `src/movies.py` (the search resolver
`search_movie`, the statistics calculator `stats`, the rating ranker
`movies_sorted_by_rating` and the random selector `random_movie`) together
with proofs checking the natural-language specification against it.

A catalog snapshot (the dict `storage.list_movies()` returns, keyed by title
in insertion order) is embedded as a list of records in iteration order.
Python floats carrying ratings are embedded as rationals: every computation
the claims touch (comparisons, sorting, halving a sum of two ratings) is
exact on the values involved. The fuzzy scorer `fuzz.token_set_ratio` is
external library code (`thefuzz`), not part of this repository, so the
resolver is embedded parametrically in the score function; `process.extract`
(stable descending order by score, default `limit=5`) is embedded as
`extract` below.
-/

namespace Movies

/-- One row of the `movies` dict: `title` is the key, the value carries
`year`, `rating` and `image` (`movie_storage_sql.list_movies`). -/
structure MovieRecord where
  title : String
  year : Int
  rating : ℚ
  image : String
deriving DecidableEq

/-- The catalog snapshot: all records in dict-iteration (= insertion) order. -/
abbrev Snapshot := List MovieRecord

/-- `s.lower()` as a list of characters. -/
def lowerChars (s : String) : List Char :=
  s.data.map Char.toLower

/-- Python's substring operator `q in t` on character lists: some suffix of `t`
starts with `q`. -/
def containsSub (q : List Char) : List Char → Bool
  | [] => q.isEmpty
  | c :: cs => List.isPrefixOf q (c :: cs) || containsSub q cs

/-- Python's `title.lower() in movie.lower()`: case-insensitive substring test. -/
def lowerContains (q t : String) : Bool :=
  containsSub (lowerChars q) (lowerChars t)

/-- The ordering `process.extract` ranks by: greater-or-equal on a key.
Sorting with it descends by the key; the sort being stable, equal keys keep
their original order. -/
def keyGE {α β : Type} [LinearOrder β] (key : α → β) (a b : α) : Prop :=
  key b ≤ key a

instance {α β : Type} [LinearOrder β] (key : α → β) : DecidableRel (keyGE key) :=
  fun a b => inferInstanceAs (Decidable (key b ≤ key a))

instance {α β : Type} [LinearOrder β] (key : α → β) : IsTotal α (keyGE key) :=
  ⟨fun a b => le_total (key b) (key a)⟩

instance {α β : Type} [LinearOrder β] (key : α → β) : IsTrans α (keyGE key) :=
  ⟨fun _ _ _ h1 h2 => le_trans h2 h1⟩

/-- Stable descending sort by a key (Python's `sorted(..., key=key, reverse=True)`
and the order `heapq.nlargest` inside `process.extract` produces). -/
def sortDescBy {α β : Type} [LinearOrder β] (key : α → β) (l : List α) : List α :=
  List.insertionSort (keyGE key) l

/-- Every choice paired with its score against the query, in snapshot order
(the generator inside `process.extract`). -/
def scoredChoices (score : String → String → Nat) (query : String)
    (titles : List String) : List (String × Nat) :=
  titles.map (fun t => (t, score query t))

/-- `thefuzz.process.extract(query, choices, scorer=...)`: every choice scored,
ranked descending by score (stable), truncated to the default `limit=5`. -/
def extract (score : String → String → Nat) (query : String)
    (titles : List String) : List (String × Nat) :=
  (sortDescBy Prod.snd (scoredChoices score query titles)).take 5

/-- The outcome of `search_movie`: the exact-phase matches, the fuzzy-phase
`(title, score)` suggestions, or the not-found message. -/
inductive SearchOutcome where
  | Matches (records : List MovieRecord)
  | Suggestions (entries : List (String × Nat))
  | NotFound
deriving DecidableEq

/-- The exact phase of `search_movie`: every record whose title contains the
query as a case-insensitive substring, in snapshot order. -/
def exactMatches (movies : Snapshot) (query : String) : Snapshot :=
  movies.filter (fun m => lowerContains query m.title)

/-- `search_movie` of `src/movies.py` for a fixed scorer and a query already
read from the user (the read loop guarantees it is non-empty).  Phase one
keeps every record whose title contains the query case-insensitively; when
none matches, `process.extract` is consulted and `fuzzy_search[0][1]` decides
between the not-found message and the suggestion list of entries scoring at
least 53.  On an empty extract result, `fuzzy_search[0]` raises `IndexError`,
embedded as `none`. -/
def search_movie (score : String → String → Nat) (movies : Snapshot)
    (query : String) : Option SearchOutcome :=
  if (exactMatches movies query).isEmpty then
    match extract score query (movies.map (fun m => m.title)) with
    | [] => none
    | (t, s) :: rest =>
      if s < 53 then some SearchOutcome.NotFound
      else some (SearchOutcome.Suggestions
        (((t, s) :: rest).filter (fun p => 53 ≤ p.2)))
  else some (SearchOutcome.Matches (exactMatches movies query))

/-- The result record of `stats`: the four quantities the function computes
and prints (the mean is kept at full precision; rounding to one decimal is
presentation only). -/
structure Statistics where
  average : ℚ
  median : ℚ
  best : List MovieRecord
  worst : List MovieRecord
deriving DecidableEq

/-- Python's built-in `max(ratings)` over the snapshot's ratings: the fold of
binary `max` seeded with the first element.  The empty case is unreachable
wherever this is used (`max([])` would raise `ValueError`; `stats` has
already failed on the mean by then). -/
def maxRating : Snapshot → ℚ
  | [] => 0
  | m :: rest => (rest.map (fun x => x.rating)).foldl max m.rating

/-- Python's built-in `min(ratings)`, symmetric with `maxRating`. -/
def minRating : Snapshot → ℚ
  | [] => 0
  | m :: rest => (rest.map (fun x => x.rating)).foldl min m.rating

/-- `stats` of `src/movies.py`.  Its first statement divides by
`len(ratings)`, so an empty snapshot raises `ZeroDivisionError` before any
statistic is produced, embedded as `none`.  Otherwise: the mean; the median
from the ascending sort of the ratings (`mid = int(len/2)`; the middle
element for odd length, the mean of the two middle elements for even
length); and every record whose rating equals the maximum (resp. minimum)
rating, in snapshot order. -/
def stats (movies : Snapshot) : Option Statistics :=
  match movies with
  | [] => none
  | m :: rest =>
    let ratings := (m :: rest).map (fun x => x.rating)
    let average := ratings.sum / (ratings.length : ℚ)
    let sortedRatings := List.insertionSort (fun a b : ℚ => a ≤ b) ratings
    let mid := ratings.length / 2
    let median :=
      if ratings.length % 2 ≠ 0 then sortedRatings.getD mid 0
      else (sortedRatings.getD (mid - 1) 0 + sortedRatings.getD mid 0) / 2
    some { average := average
           median := median
           best := (m :: rest).filter (fun x => decide (x.rating = maxRating (m :: rest)))
           worst := (m :: rest).filter (fun x => decide (x.rating = minRating (m :: rest))) }

/-- `movies_sorted_by_rating` of `src/movies.py`:
`sorted(movies.items(), key=lambda x: x[1]['rating'], reverse=True)` — a
stable sort, descending by rating. -/
def movies_sorted_by_rating (movies : Snapshot) : Snapshot :=
  sortDescBy (fun m => m.rating) movies

/-- `random_movie` of `src/movies.py`: `random.choice(list(movies.items()))`
picks the item at a uniformly random index; the randomness source is
embedded as the index `i` it supplies.  On an empty snapshot
`random.choice` raises `IndexError`, embedded as `none`. -/
def random_movie (movies : Snapshot) (i : Nat) : Option MovieRecord :=
  movies[i]?

/-- `search_movie` with the snapshot state threaded explicitly: no statement
of the Python body assigns into the `movies` dict or calls a mutating
storage function, so the snapshot after the call is the snapshot passed. -/
def search_movie_run (score : String → String → Nat) (movies : Snapshot)
    (query : String) : Option SearchOutcome × Snapshot :=
  (search_movie score movies query, movies)

/-- `stats` with the snapshot state threaded explicitly (the body only reads
`movies`). -/
def stats_run (movies : Snapshot) : Option Statistics × Snapshot :=
  (stats movies, movies)

/-- `movies_sorted_by_rating` with the snapshot state threaded explicitly
(`sorted` builds a fresh list; the body only reads `movies`). -/
def movies_sorted_by_rating_run (movies : Snapshot) : Snapshot × Snapshot :=
  (movies_sorted_by_rating movies, movies)

/-- `random_movie` with the snapshot state threaded explicitly
(`list(movies.items())` copies; the body only reads `movies`). -/
def random_movie_run (movies : Snapshot) (i : Nat) :
    Option MovieRecord × Snapshot :=
  (random_movie movies i, movies)

/-- Split a character list into words at spaces: maximal runs of non-space
characters, the accumulator carrying the current word reversed. -/
def splitWordsAux : List Char → List Char → List (List Char)
  | [], acc => if acc.isEmpty then [] else [acc.reverse]
  | c :: cs, acc =>
    if c = ' ' then
      if acc.isEmpty then splitWordsAux cs []
      else acc.reverse :: splitWordsAux cs []
    else splitWordsAux cs (c :: acc)

/-- The words of a string, lowercased. -/
def tokensOf (s : String) : List (List Char) :=
  splitWordsAux (lowerChars s) []

/-- Every token of `a` occurs among the tokens of `b`. -/
def subsetTokens (a b : List (List Char)) : Bool :=
  a.all (fun w => b.contains w)

/-- The two strings have the same set of words (order and repetition
ignored). -/
def sameTokenSet (a b : String) : Bool :=
  subsetTokens (tokensOf a) (tokensOf b) && subsetTokens (tokensOf b) (tokensOf a)

/-- Modelled from the spec: the fuzzy scorer `fuzz.token_set_ratio` is
external library code (`thefuzz`), not a function of this repository.  The
spec pins down only that the token-set similarity score ranges over 0–100
and that identical token sets score 100 regardless of order or repetition,
so this model returns 100 exactly on identical token sets and 0 elsewhere
(the sub-100 values of the external scorer are left unspecified). -/
def tokenSetScore100 (q t : String) : Nat :=
  if sameTokenSet q t then 100 else 0

/-- A record fixture: year 2000 and an empty poster reference, neither of
which any core computation reads. -/
def mkMovie (title : String) (rating : ℚ) : MovieRecord :=
  { title := title, year := 2000, rating := rating, image := "" }

/-- Six records whose titles all carry the token set of the query
`"wars star wars"` (so the external scorer gives each of them 100) while
none of them contains that query as a case-insensitive substring. -/
def starMovies : Snapshot :=
  [ mkMovie "Star Wars" 9,
    mkMovie "Star Star Wars" 8,
    mkMovie "Wars Wars Star" 7,
    mkMovie "Star Wars Wars" 6,
    mkMovie "Wars Star Star" 5,
    mkMovie "Wars Wars Wars Star" 4 ]

/-- Five crowding records with the query's token set plus one unrelated
record, for the threshold-boundary counterexample. -/
def crowdMovies : Snapshot :=
  [ mkMovie "Star Wars" 9,
    mkMovie "Star Star Wars" 8,
    mkMovie "Wars Wars Star" 7,
    mkMovie "Star Wars Wars" 6,
    mkMovie "Wars Star Star" 5,
    mkMovie "Seven Samurai" 9 ]

/-- A scorer outcome refuting the boundary claim as stated: the five
crowding titles score 100 and the unrelated title scores exactly the
threshold 53. -/
def crowdScore (q t : String) : Nat :=
  if t = "Seven Samurai" then 53 else tokenSetScore100 q t

/-- A two-record snapshot for the fuzzy-phase witnesses. -/
def duoMovies : Snapshot :=
  [ mkMovie "Inception" 8.8, mkMovie "Seven" 7 ]

/-- A scorer outcome for the fuzzy-phase witnesses: one title above the
threshold, one below. -/
def duoScore (_q t : String) : Nat :=
  if t = "Inception" then 60 else 40

/-- The spec's ranker-stability catalog: A:7.0, B:9.0, C:7.0 inserted in
order A, B, C. -/
def demoA : MovieRecord := mkMovie "A" 7
def demoB : MovieRecord := mkMovie "B" 9
def demoC : MovieRecord := mkMovie "C" 7
def demoABC : Snapshot := [demoA, demoB, demoC]

/-- The spec's best/worst tie catalog: A:8.0, B:8.0, C:5.0. -/
def tieA : MovieRecord := mkMovie "A" 8
def tieB : MovieRecord := mkMovie "B" 8
def tieC : MovieRecord := mkMovie "C" 5
def tieMovies : Snapshot := [tieA, tieB, tieC]

/-- Snapshots realizing the spec's median examples `[5.0, 7.0, 9.0]` and
`[5.0, 6.0, 7.0, 9.0]`. -/
def medes3 : Snapshot := [mkMovie "A" 5, mkMovie "B" 7, mkMovie "C" 9]
def medes4 : Snapshot := [mkMovie "A" 5, mkMovie "B" 6, mkMovie "C" 7, mkMovie "D" 9]

/-- The five entries the resolver suggests on `starMovies` for the query
`"wars star wars"`: the sixth qualifying title has been cut off. -/
def fiveSuggestions : List (String × Nat) :=
  [("Star Wars", 100), ("Star Star Wars", 100), ("Wars Wars Star", 100),
    ("Star Wars Wars", 100), ("Wars Star Star", 100)]

/-- What `stats` computes on `tieMovies` (the average kept as the expression
the code forms, rational addition not being kernel-reducible). -/
def tieStats : Statistics :=
  { average := (tieMovies.map (fun x => x.rating)).sum /
      ((tieMovies.map (fun x => x.rating)).length : ℚ)
    median := 8
    best := [tieA, tieB]
    worst := [tieC] }

section SortLemmas

variable {α β : Type} [LinearOrder β]

theorem sortDescBy_perm (key : α → β) (l : List α) :
    (sortDescBy key l).Perm l :=
  List.perm_insertionSort (keyGE key) l

theorem sortDescBy_pairwise (key : α → β) (l : List α) :
    (sortDescBy key l).Pairwise (fun a b => key b ≤ key a) :=
  List.sorted_insertionSort (keyGE key) l

/-- Inserting an element whose key equals `v` prepends it to the `v`-filtered
list: every element it jumps over has a strictly greater key. -/
theorem filter_orderedInsert_of_key_eq (key : α → β) {v : β} {x : α}
    (hx : key x = v) (l : List α) :
    (List.orderedInsert (keyGE key) x l).filter (fun a => decide (key a = v)) =
      x :: l.filter (fun a => decide (key a = v)) := by
  induction l with
  | nil => simp [hx]
  | cons y ys ih =>
    rw [List.orderedInsert]
    by_cases h : keyGE key x y
    · rw [if_pos h, List.filter_cons, List.filter_cons]
      simp [hx]
    · rw [if_neg h, List.filter_cons, List.filter_cons]
      have hy : ¬ key y = v := by
        intro hv
        exact h (le_of_eq (hx ▸ hv))
      simp [hy, ih]

/-- Inserting an element whose key differs from `v` leaves the `v`-filtered
list unchanged. -/
theorem filter_orderedInsert_of_key_ne (key : α → β) {v : β} {x : α}
    (hx : ¬ key x = v) (l : List α) :
    (List.orderedInsert (keyGE key) x l).filter (fun a => decide (key a = v)) =
      l.filter (fun a => decide (key a = v)) := by
  induction l with
  | nil => simp [hx]
  | cons y ys ih =>
    rw [List.orderedInsert]
    by_cases h : keyGE key x y
    · rw [if_pos h, List.filter_cons, List.filter_cons]
      simp [hx]
    · rw [if_neg h, List.filter_cons, List.filter_cons]
      simp [ih]

/-- Stability of the descending sort: the elements of any one key value come
out exactly as they went in. -/
theorem filter_sortDescBy (key : α → β) (v : β) (l : List α) :
    (sortDescBy key l).filter (fun a => decide (key a = v)) =
      l.filter (fun a => decide (key a = v)) := by
  induction l with
  | nil => rfl
  | cons x xs ih =>
    show (List.orderedInsert (keyGE key) x (sortDescBy key xs)).filter _ = _
    by_cases hx : key x = v
    · rw [filter_orderedInsert_of_key_eq key hx, ih, List.filter_cons]
      simp [hx]
    · rw [filter_orderedInsert_of_key_ne key hx, ih, List.filter_cons]
      simp [hx]

/-- In a descending-sorted list the head's key dominates every member's. -/
theorem key_le_head_of_pairwise (key : α → β) {p : α} {rest : List α}
    (h : (p :: rest).Pairwise (fun a b => key b ≤ key a)) :
    ∀ x ∈ p :: rest, key x ≤ key p := by
  intro x hx
  rcases List.mem_cons.mp hx with hx | hx
  · exact le_of_eq (by rw [hx])
  · exact (List.pairwise_cons.mp h).1 x hx

end SortLemmas

section ExtractLemmas

theorem extract_sublist_sort (score : String → String → Nat) (query : String)
    (titles : List String) :
    (extract score query titles).Sublist
      (sortDescBy Prod.snd (scoredChoices score query titles)) :=
  List.take_sublist 5 _

theorem mem_extract_mem_scored {score : String → String → Nat} {query : String}
    {titles : List String} {p : String × Nat}
    (hp : p ∈ extract score query titles) :
    p ∈ scoredChoices score query titles :=
  (sortDescBy_perm Prod.snd (scoredChoices score query titles)).mem_iff.mp
    ((extract_sublist_sort score query titles).subset hp)

theorem mem_scoredChoices {score : String → String → Nat} {query : String}
    {titles : List String} {p : String × Nat} :
    p ∈ scoredChoices score query titles ↔ ∃ t ∈ titles, p = (t, score query t) := by
  simp [scoredChoices, eq_comm]

theorem extract_pairwise (score : String → String → Nat) (query : String)
    (titles : List String) :
    (extract score query titles).Pairwise (fun a b => b.2 ≤ a.2) :=
  (sortDescBy_pairwise Prod.snd (scoredChoices score query titles)).sublist
    (extract_sublist_sort score query titles)

theorem extract_ne_nil {score : String → String → Nat} {query : String}
    {titles : List String} (h : titles ≠ []) :
    extract score query titles ≠ [] := by
  intro hnil
  rcases List.take_eq_nil_iff.mp hnil with h5 | hs
  · exact absurd h5 (by decide)
  · have hp := sortDescBy_perm Prod.snd (scoredChoices score query titles)
    rw [hs] at hp
    have : scoredChoices score query titles = [] := hp.symm.eq_nil
    exact h (List.map_eq_nil_iff.mp this)

/-- The first entry `process.extract` returns scores at least as high as
every scored choice. -/
theorem snd_le_head_extract {score : String → String → Nat} {query : String}
    {titles : List String} {p : String × Nat} {rest : List (String × Nat)}
    (he : extract score query titles = p :: rest)
    {x : String × Nat} (hx : x ∈ scoredChoices score query titles) :
    x.2 ≤ p.2 := by
  rcases hsort : sortDescBy Prod.snd (scoredChoices score query titles) with _ | ⟨q, qs⟩
  · rw [extract, hsort] at he
    exact absurd he (by simp)
  · have hmem : x ∈ q :: qs := by
      rw [← hsort]
      exact (sortDescBy_perm Prod.snd (scoredChoices score query titles)).symm.subset hx
    have hpair : (q :: qs).Pairwise (fun a b : String × Nat => b.2 ≤ a.2) := by
      rw [← hsort]; exact sortDescBy_pairwise Prod.snd _
    have hq : p = q := by
      rw [extract, hsort, List.take_succ_cons] at he
      exact (List.cons.injEq .. ▸ he).1.symm ▸ rfl
    rw [hq]
    exact key_le_head_of_pairwise Prod.snd hpair x hmem

end ExtractLemmas

section FoldLemmas

theorem foldl_max_mem (xs : List ℚ) (x : ℚ) : xs.foldl max x ∈ x :: xs := by
  induction xs generalizing x with
  | nil => simp
  | cons y ys ih =>
    rw [List.foldl_cons]
    rcases List.mem_cons.mp (ih (max x y)) with h | h
    · rw [h]
      rcases max_choice x y with hm | hm <;> rw [hm]
      · exact List.mem_cons_self _ _
      · exact List.mem_cons_of_mem _ (List.mem_cons_self _ _)
    · exact List.mem_cons_of_mem _ (List.mem_cons_of_mem _ h)

theorem le_foldl_max (xs : List ℚ) (x y : ℚ) (hy : y ∈ x :: xs) :
    y ≤ xs.foldl max x := by
  induction xs generalizing x y with
  | nil =>
    rw [List.mem_singleton] at hy
    rw [hy]
    exact le_refl x
  | cons z zs ih =>
    rw [List.foldl_cons]
    rcases List.mem_cons.mp hy with rfl | h
    · exact le_trans (le_max_left y z) (ih (max y z) _ (List.mem_cons_self _ _))
    · rcases List.mem_cons.mp h with rfl | h
      · exact le_trans (le_max_right x y) (ih (max x y) _ (List.mem_cons_self _ _))
      · exact ih (max x z) y (List.mem_cons_of_mem _ h)

theorem foldl_min_mem (xs : List ℚ) (x : ℚ) : xs.foldl min x ∈ x :: xs := by
  induction xs generalizing x with
  | nil => simp
  | cons y ys ih =>
    rw [List.foldl_cons]
    rcases List.mem_cons.mp (ih (min x y)) with h | h
    · rw [h]
      rcases min_choice x y with hm | hm <;> rw [hm]
      · exact List.mem_cons_self _ _
      · exact List.mem_cons_of_mem _ (List.mem_cons_self _ _)
    · exact List.mem_cons_of_mem _ (List.mem_cons_of_mem _ h)

theorem foldl_min_le (xs : List ℚ) (x y : ℚ) (hy : y ∈ x :: xs) :
    xs.foldl min x ≤ y := by
  induction xs generalizing x y with
  | nil =>
    rw [List.mem_singleton] at hy
    rw [hy]
    exact le_refl x
  | cons z zs ih =>
    rw [List.foldl_cons]
    rcases List.mem_cons.mp hy with rfl | h
    · exact le_trans (ih (min y z) _ (List.mem_cons_self _ _)) (min_le_left y z)
    · rcases List.mem_cons.mp h with rfl | h
      · exact le_trans (ih (min x y) _ (List.mem_cons_self _ _)) (min_le_right x y)
      · exact ih (min x z) y (List.mem_cons_of_mem _ h)

end FoldLemmas

section SearchLemmas

theorem search_movie_of_no_exact (score : String → String → Nat)
    (movies : Snapshot) (query : String)
    (hex : exactMatches movies query = []) :
    search_movie score movies query =
      match extract score query (movies.map (fun m => m.title)) with
      | [] => none
      | (t, s) :: rest =>
        if s < 53 then some SearchOutcome.NotFound
        else some (SearchOutcome.Suggestions
          (((t, s) :: rest).filter (fun p => 53 ≤ p.2))) := by
  simp [search_movie, hex]

theorem search_movie_suggestions_inv {score : String → String → Nat}
    {movies : Snapshot} {query : String} {S : List (String × Nat)}
    (h : search_movie score movies query = some (SearchOutcome.Suggestions S)) :
    exactMatches movies query = [] ∧
    S = (extract score query (movies.map (fun m => m.title))).filter
          (fun p => 53 ≤ p.2) := by
  by_cases hex : (exactMatches movies query).isEmpty
  · have hex0 : exactMatches movies query = [] := List.isEmpty_iff.mp hex
    refine ⟨hex0, ?_⟩
    have hb := (search_movie_of_no_exact score movies query hex0).symm.trans h
    rcases hext : extract score query (movies.map (fun m => m.title))
      with _ | ⟨⟨t, s⟩, rest⟩
    · rw [hext] at hb
      simp at hb
    · rw [hext] at hb
      by_cases hs : s < 53
      · simp [hs] at hb
      · simp [hs] at hb
        rw [hext]
        exact hb.symm
  · rw [search_movie, if_neg hex] at h
    exact absurd h (by simp)

theorem search_movie_matches_inv {score : String → String → Nat}
    {movies : Snapshot} {query : String} {l : Snapshot}
    (h : search_movie score movies query = some (SearchOutcome.Matches l)) :
    l = exactMatches movies query := by
  by_cases hex : (exactMatches movies query).isEmpty
  · have hex0 : exactMatches movies query = [] := List.isEmpty_iff.mp hex
    have hb := (search_movie_of_no_exact score movies query hex0).symm.trans h
    rcases hext : extract score query (movies.map (fun m => m.title))
      with _ | ⟨⟨t, s⟩, rest⟩
    · rw [hext] at hb
      simp at hb
    · rw [hext] at hb
      by_cases hs : s < 53 <;> simp [hs] at hb
  · rw [search_movie, if_neg hex] at h
    simp only [Option.some.injEq, SearchOutcome.Matches.injEq] at h
    exact h.symm

end SearchLemmas

/-- C1: with a non-empty query, as soon as one record's title contains the
query case-insensitively, the resolver returns `Matches` holding exactly the
records whose titles contain the query, whatever the fuzzy scorer would
say — the fuzzy phase is dead code on this path. -/
theorem search_exact_precedence (score : String → String → Nat)
    (movies : Snapshot) (query : String) (hq : query ≠ "")
    (hex : ∃ m ∈ movies, lowerContains query m.title = true) :
    search_movie score movies query =
      some (SearchOutcome.Matches
        (movies.filter (fun m => lowerContains query m.title))) := by
  obtain ⟨m, hm, hc⟩ := hex
  have hmem : m ∈ exactMatches movies query := List.mem_filter.mpr ⟨hm, hc⟩
  have hne : ¬ (exactMatches movies query).isEmpty := by
    intro hemp
    rw [List.isEmpty_iff.mp hemp] at hmem
    exact absurd hmem (List.not_mem_nil m)
  rw [search_movie, if_neg hne]
  rfl

theorem search_exact_precedence_witness :
    ("cep" : String) ≠ "" ∧
    (∃ m ∈ duoMovies, lowerContains "cep" m.title = true) ∧
    search_movie duoScore duoMovies "cep" =
      some (SearchOutcome.Matches
        (duoMovies.filter (fun m => lowerContains "cep" m.title))) :=
  ⟨by decide, by decide,
    search_exact_precedence duoScore duoMovies "cep" (by decide) (by decide)⟩

/-- C4: on an empty snapshot the resolver does not return `NotFound` — the
exact phase finds nothing, `process.extract` over no choices returns the
empty list, and `fuzzy_search[0]` raises an uncaught `IndexError` (embedded
as `none`), for every query and every scorer. -/
theorem search_empty_snapshot_is_error (score : String → String → Nat)
    (query : String) :
    search_movie score [] query = none := rfl

/-- C2 (amended for `process.extract`'s default `limit=5`): with no exact
match and some title scoring at least 53, the resolver returns
`Suggestions` consisting of the titles scoring at least 53 **among the five
highest-scoring candidates**, paired with their scores, ordered descending
by score, equal scores keeping snapshot order (their title sequence is a
sublist of the snapshot's title sequence); every entry is a snapshot title
paired with its own score. -/
theorem search_fuzzy_suggestions (score : String → String → Nat)
    (movies : Snapshot) (query : String) (hq : query ≠ "")
    (hex : exactMatches movies query = [])
    (htop : ∃ m ∈ movies, 53 ≤ score query m.title) :
    ∃ S, search_movie score movies query = some (SearchOutcome.Suggestions S) ∧
      S = (extract score query (movies.map (fun m => m.title))).filter
            (fun p => 53 ≤ p.2) ∧
      S.Pairwise (fun a b => b.2 ≤ a.2) ∧
      (∀ v, ((S.filter (fun p => decide (p.2 = v))).map Prod.fst).Sublist
          (movies.map (fun m => m.title))) ∧
      (∀ p ∈ S, p.1 ∈ movies.map (fun m => m.title) ∧
          p.2 = score query p.1 ∧ 53 ≤ p.2) := by
  obtain ⟨m, hm, hsc⟩ := htop
  have htitles : movies.map (fun m => m.title) ≠ [] := by
    intro h0
    rw [List.map_eq_nil_iff.mp h0] at hm
    exact absurd hm (List.not_mem_nil m)
  rcases hext : extract score query (movies.map (fun m => m.title))
    with _ | ⟨⟨t, s⟩, rest⟩
  · exact absurd hext (extract_ne_nil htitles)
  · have hx : (m.title, score query m.title) ∈
        scoredChoices score query (movies.map (fun m => m.title)) :=
      mem_scoredChoices.mpr ⟨m.title, List.mem_map_of_mem _ hm, rfl⟩
    have h53 : 53 ≤ s := le_trans hsc (snd_le_head_extract hext hx)
    have hns : ¬ s < 53 := not_lt.mpr h53
    refine ⟨(extract score query (movies.map (fun m => m.title))).filter
      (fun p => 53 ≤ p.2), ?_, rfl, ?_, ?_, ?_⟩
    · rw [search_movie_of_no_exact score movies query hex, hext]
      simp [hns]
    · exact (extract_pairwise score query (movies.map (fun m => m.title))).sublist
        (List.filter_sublist _)
    · intro v
      have e1 : ((extract score query (movies.map (fun m => m.title))).filter
            (fun p => 53 ≤ p.2)).filter (fun p => decide (p.2 = v)) =
          (extract score query (movies.map (fun m => m.title))).filter
            (fun p => decide (p.2 = v) && decide (53 ≤ p.2)) :=
        List.filter_filter _ _
      rw [e1]
      have h2 : ((extract score query (movies.map (fun m => m.title))).filter
            (fun p => decide (p.2 = v) && decide (53 ≤ p.2))).Sublist
          ((extract score query (movies.map (fun m => m.title))).filter
            (fun p : String × Nat => decide (p.2 = v))) :=
        List.monotone_filter_right _ (fun a ha => by
          rw [Bool.and_eq_true] at ha
          exact ha.1)
      have h3 : ((extract score query (movies.map (fun m => m.title))).filter
            (fun p : String × Nat => decide (p.2 = v))).Sublist
          ((sortDescBy Prod.snd
              (scoredChoices score query (movies.map (fun m => m.title)))).filter
            (fun p : String × Nat => decide (p.2 = v))) :=
        (extract_sublist_sort score query (movies.map (fun m => m.title))).filter _
      have h4 : ((sortDescBy Prod.snd
            (scoredChoices score query (movies.map (fun m => m.title)))).filter
            (fun p : String × Nat => decide (p.2 = v))) =
          (scoredChoices score query (movies.map (fun m => m.title))).filter
            (fun p : String × Nat => decide (p.2 = v)) :=
        filter_sortDescBy Prod.snd v _
      have h5 : ((scoredChoices score query (movies.map (fun m => m.title))).filter
            (fun p : String × Nat => decide (p.2 = v))).Sublist
          (scoredChoices score query (movies.map (fun m => m.title))) :=
        List.filter_sublist _
      have h6 := ((h2.trans (h4 ▸ h3)).trans h5).map Prod.fst
      have e2 : (scoredChoices score query (movies.map (fun m => m.title))).map
          Prod.fst = movies.map (fun m => m.title) := by
        simp [scoredChoices]
      rw [e2] at h6
      exact h6
    · intro p hp
      have hp2 := List.mem_filter.mp hp
      have hps : 53 ≤ p.2 := of_decide_eq_true hp2.2
      obtain ⟨t0, ht0, hpt⟩ := mem_scoredChoices.mp (mem_extract_mem_scored hp2.1)
      refine ⟨?_, ?_, hps⟩
      · rw [hpt]
        exact ht0
      · rw [hpt]

/-- C2 counterexample to the claim as stated: six snapshot titles score at
least 53 against the query (each scores 100, carrying the query's very token
set), there is no exact substring match, yet the returned suggestion list
misses the sixth qualifying title — `process.extract` hands the resolver
only its `limit=5` best candidates. -/
theorem search_suggestions_miss_qualifying_title :
    ("Wars Wars Wars Star" ∈ starMovies.map (fun m => m.title)) ∧
    53 ≤ tokenSetScore100 "wars star wars" "Wars Wars Wars Star" ∧
    exactMatches starMovies "wars star wars" = [] ∧
    ∃ S, search_movie tokenSetScore100 starMovies "wars star wars" =
        some (SearchOutcome.Suggestions S) ∧
      (∀ p ∈ S, p.1 ≠ "Wars Wars Wars Star") :=
  ⟨by decide, by decide, by decide,
    ⟨[("Star Wars", 100), ("Star Star Wars", 100), ("Wars Wars Star", 100),
      ("Star Wars Wars", 100), ("Wars Star Star", 100)],
      by decide, by decide⟩⟩

theorem search_fuzzy_suggestions_witness :
    ("blah" : String) ≠ "" ∧
    exactMatches duoMovies "blah" = [] ∧
    (∃ m ∈ duoMovies, 53 ≤ duoScore "blah" m.title) ∧
    (∃ S, search_movie duoScore duoMovies "blah" =
        some (SearchOutcome.Suggestions S) ∧
      S = (extract duoScore "blah" (duoMovies.map (fun m => m.title))).filter
            (fun p => 53 ≤ p.2) ∧
      S.Pairwise (fun a b => b.2 ≤ a.2) ∧
      (∀ v, ((S.filter (fun p => decide (p.2 = v))).map Prod.fst).Sublist
          (duoMovies.map (fun m => m.title))) ∧
      (∀ p ∈ S, p.1 ∈ duoMovies.map (fun m => m.title) ∧
          p.2 = duoScore "blah" p.1 ∧ 53 ≤ p.2)) :=
  ⟨by decide, by decide, by decide,
    search_fuzzy_suggestions duoScore duoMovies "blah"
      (by decide) (by decide) (by decide)⟩

/-- C3 (amended for `process.extract`'s default `limit=5`): in the fuzzy
phase, (i) a candidate handed over by `process.extract` (one of the five
highest-scoring titles) whose score is exactly 53 is included in the
returned suggestions; (ii) a title scoring 52 never appears among the
suggestions; (iii) when every snapshot title scores at most 52 the resolver
returns `NotFound`. -/
theorem search_threshold_boundary (score : String → String → Nat)
    (movies : Snapshot) (query : String)
    (hex : exactMatches movies query = []) :
    (∀ t, (t, 53) ∈ extract score query (movies.map (fun m => m.title)) →
      ∃ S, search_movie score movies query =
          some (SearchOutcome.Suggestions S) ∧ (t, 53) ∈ S) ∧
    (∀ S, search_movie score movies query =
        some (SearchOutcome.Suggestions S) →
      ∀ t, score query t = 52 → ∀ s, (t, s) ∉ S) ∧
    (movies ≠ [] → (∀ m ∈ movies, score query m.title ≤ 52) →
      search_movie score movies query = some SearchOutcome.NotFound) := by
  refine ⟨?_, ?_, ?_⟩
  · intro t ht
    rcases hext : extract score query (movies.map (fun m => m.title))
      with _ | ⟨⟨t0, s0⟩, rest⟩
    · rw [hext] at ht
      exact absurd ht (List.not_mem_nil _)
    · have hpair : ((t0, s0) :: rest).Pairwise
          (fun a b : String × Nat => b.2 ≤ a.2) := by
        rw [← hext]
        exact extract_pairwise score query _
      have h53 : 53 ≤ s0 := by
        have := key_le_head_of_pairwise Prod.snd hpair (t, 53) (hext ▸ ht)
        simpa using this
      have hns : ¬ s0 < 53 := not_lt.mpr h53
      refine ⟨(extract score query (movies.map (fun m => m.title))).filter
        (fun p => 53 ≤ p.2), ?_, ?_⟩
      · rw [search_movie_of_no_exact score movies query hex, hext]
        simp [hns]
      · exact List.mem_filter.mpr ⟨ht, rfl⟩
  · intro S hS t hts s hmem
    obtain ⟨-, hSeq⟩ := search_movie_suggestions_inv hS
    rw [hSeq] at hmem
    have hp := List.mem_filter.mp hmem
    have h53 : 53 ≤ s := of_decide_eq_true hp.2
    obtain ⟨t1, ht1, hpair⟩ := mem_scoredChoices.mp (mem_extract_mem_scored hp.1)
    have ht : t1 = t := (Prod.mk.injEq .. ▸ hpair).1.symm
    have hs : s = score query t1 := (Prod.mk.injEq .. ▸ hpair).2
    rw [ht, hts] at hs
    omega
  · intro hne hall
    have htitles : movies.map (fun m => m.title) ≠ [] := by
      intro h0
      exact hne (List.map_eq_nil_iff.mp h0)
    rcases hext : extract score query (movies.map (fun m => m.title))
      with _ | ⟨⟨t0, s0⟩, rest⟩
    · exact absurd hext (extract_ne_nil htitles)
    · have hhead : (t0, s0) ∈ extract score query (movies.map (fun m => m.title)) := by
        rw [hext]
        exact List.mem_cons_self _ _
      obtain ⟨t1, ht1, hpair⟩ := mem_scoredChoices.mp (mem_extract_mem_scored hhead)
      obtain ⟨m1, hm1, hm1t⟩ := List.mem_map.mp ht1
      have hs0 : s0 = score query t1 := (Prod.mk.injEq .. ▸ hpair).2
      have hle : s0 ≤ 52 := by
        rw [hs0, ← hm1t]
        exact hall m1 hm1
      have hlt : s0 < 53 := by omega
      rw [search_movie_of_no_exact score movies query hex, hext]
      simp [hlt]

/-- C3 counterexample to the claim as stated: a snapshot title scoring
exactly 53 in the fuzzy phase is nevertheless absent from the returned
suggestions, because five other titles score higher and `process.extract`
keeps only its `limit=5` best candidates. -/
theorem search_threshold_53_pushed_out :
    ("Seven Samurai" ∈ crowdMovies.map (fun m => m.title)) ∧
    crowdScore "wars star wars" "Seven Samurai" = 53 ∧
    exactMatches crowdMovies "wars star wars" = [] ∧
    ∃ S, search_movie crowdScore crowdMovies "wars star wars" =
        some (SearchOutcome.Suggestions S) ∧
      (∀ p ∈ S, p.1 ≠ "Seven Samurai") :=
  ⟨by decide, by decide, by decide,
    ⟨[("Star Wars", 100), ("Star Star Wars", 100), ("Wars Wars Star", 100),
      ("Star Wars Wars", 100), ("Wars Star Star", 100)],
      by decide, by decide⟩⟩

theorem search_threshold_boundary_witness :
    exactMatches duoMovies "blah" = [] ∧
    ((∀ t, (t, 53) ∈ extract duoScore "blah" (duoMovies.map (fun m => m.title)) →
      ∃ S, search_movie duoScore duoMovies "blah" =
          some (SearchOutcome.Suggestions S) ∧ (t, 53) ∈ S) ∧
    (∀ S, search_movie duoScore duoMovies "blah" =
        some (SearchOutcome.Suggestions S) →
      ∀ t, duoScore "blah" t = 52 → ∀ s, (t, s) ∉ S) ∧
    (duoMovies ≠ [] → (∀ m ∈ duoMovies, duoScore "blah" m.title ≤ 52) →
      search_movie duoScore duoMovies "blah" = some SearchOutcome.NotFound)) :=
  ⟨by decide, search_threshold_boundary duoScore duoMovies "blah" (by decide)⟩

/-- C10: a `Suggestions` outcome carries at most 5 entries, and each entry
comes from the five highest-scoring candidates `process.extract` keeps
(its default `limit=5`), however many snapshot titles score at least 53. -/
theorem search_suggestions_at_most_five (score : String → String → Nat)
    (movies : Snapshot) (query : String) (S : List (String × Nat))
    (h : search_movie score movies query = some (SearchOutcome.Suggestions S)) :
    S.length ≤ 5 ∧
    ∀ p ∈ S, p ∈ extract score query (movies.map (fun m => m.title)) := by
  obtain ⟨-, hSeq⟩ := search_movie_suggestions_inv h
  constructor
  · rw [hSeq]
    refine le_trans (List.length_filter_le _ _) ?_
    rw [extract, List.length_take]
    exact min_le_left _ _
  · intro p hp
    rw [hSeq] at hp
    exact (List.mem_filter.mp hp).1

theorem search_suggestions_at_most_five_witness :
    search_movie tokenSetScore100 starMovies "wars star wars" =
      some (SearchOutcome.Suggestions fiveSuggestions) ∧
    (fiveSuggestions.length ≤ 5 ∧
      ∀ p ∈ fiveSuggestions,
        p ∈ extract tokenSetScore100 "wars star wars"
            (starMovies.map (fun m => m.title))) :=
  ⟨by decide,
    search_suggestions_at_most_five tokenSetScore100 starMovies
      "wars star wars" fiveSuggestions (by decide)⟩

/-- C5: the median of `stats` is the midpoint of the ascending sort of the
ratings — the element at index `n / 2` for odd count `n`, the mean of the
elements at indices `n / 2 - 1` and `n / 2` for even count — and on the
spec's examples: ratings 5, 7, 9 give 7 and ratings 5, 6, 7, 9 give 13/2. -/
theorem stats_median_spec (movies : Snapshot) (h : movies ≠ []) :
    (∃ s, stats movies = some s ∧
      ∃ l : List ℚ, l.Perm (movies.map (fun m => m.rating)) ∧
        l.Sorted (fun a b : ℚ => a ≤ b) ∧
        s.median = (if l.length % 2 = 1 then l.getD (l.length / 2) 0
          else (l.getD (l.length / 2 - 1) 0 + l.getD (l.length / 2) 0) / 2)) ∧
    (∃ s3, stats medes3 = some s3 ∧ s3.median = 7) ∧
    (∃ s4, stats medes4 = some s4 ∧ s4.median = (13 : ℚ) / 2) := by
  have h4 : ∃ s4, stats medes4 = some s4 ∧ s4.median = (13 : ℚ) / 2 := by
    refine ⟨_, rfl, ?_⟩
    show (if ((medes4.map (fun x => x.rating)).length % 2 ≠ 0) then
        (List.insertionSort (fun a b : ℚ => a ≤ b)
            (medes4.map (fun x => x.rating))).getD
          ((medes4.map (fun x => x.rating)).length / 2) 0
      else
        ((List.insertionSort (fun a b : ℚ => a ≤ b)
              (medes4.map (fun x => x.rating))).getD
            ((medes4.map (fun x => x.rating)).length / 2 - 1) 0 +
          (List.insertionSort (fun a b : ℚ => a ≤ b)
              (medes4.map (fun x => x.rating))).getD
            ((medes4.map (fun x => x.rating)).length / 2) 0) / 2) =
      (13 : ℚ) / 2
    rw [if_neg (by decide),
      show (List.insertionSort (fun a b : ℚ => a ≤ b)
            (medes4.map (fun x => x.rating))).getD
          ((medes4.map (fun x => x.rating)).length / 2 - 1) 0 = (6 : ℚ)
        from by decide,
      show (List.insertionSort (fun a b : ℚ => a ≤ b)
            (medes4.map (fun x => x.rating))).getD
          ((medes4.map (fun x => x.rating)).length / 2) 0 = (7 : ℚ)
        from by decide]
    norm_num
  refine ⟨?_, ⟨_, rfl, by decide⟩, h4⟩
  rcases movies with _ | ⟨m, rest⟩
  · exact absurd rfl h
  · refine ⟨_, rfl,
      List.insertionSort (fun a b : ℚ => a ≤ b)
        ((m :: rest).map (fun x => x.rating)),
      List.perm_insertionSort _ _, List.sorted_insertionSort _ _, ?_⟩
    have hl : (List.insertionSort (fun a b : ℚ => a ≤ b)
        ((m :: rest).map (fun x => x.rating))).length =
        ((m :: rest).map (fun x => x.rating)).length :=
      (List.perm_insertionSort _ _).length_eq
    rw [hl]
    rcases Nat.mod_two_eq_zero_or_one ((m :: rest).map (fun x => x.rating)).length
      with hpar | hpar
    · show (if _ ≠ 0 then _ else _) = _
      rw [if_neg (by omega), if_neg (by omega)]
    · show (if _ ≠ 0 then _ else _) = _
      rw [if_pos (by omega), if_pos (by omega)]

theorem stats_median_spec_witness :
    medes4 ≠ [] ∧
    ((∃ s, stats medes4 = some s ∧
      ∃ l : List ℚ, l.Perm (medes4.map (fun m => m.rating)) ∧
        l.Sorted (fun a b : ℚ => a ≤ b) ∧
        s.median = (if l.length % 2 = 1 then l.getD (l.length / 2) 0
          else (l.getD (l.length / 2 - 1) 0 + l.getD (l.length / 2) 0) / 2)) ∧
    (∃ s3, stats medes3 = some s3 ∧ s3.median = 7) ∧
    (∃ s4, stats medes4 = some s4 ∧ s4.median = (13 : ℚ) / 2)) :=
  ⟨by decide, stats_median_spec medes4 (by decide)⟩

/-- C6: `best` holds exactly the records whose rating nothing in the
snapshot exceeds, `worst` exactly those whose rating nothing undercuts —
all ties reported on both sides. -/
theorem stats_best_worst_ties (movies : Snapshot) (s : Statistics)
    (rec : MovieRecord) (hs : stats movies = some s) :
    (rec ∈ s.best ↔ rec ∈ movies ∧ ∀ o ∈ movies, o.rating ≤ rec.rating) ∧
    (rec ∈ s.worst ↔ rec ∈ movies ∧ ∀ o ∈ movies, rec.rating ≤ o.rating) := by
  rcases movies with _ | ⟨m, rest⟩
  · exact absurd hs (by simp [stats])
  · have hsome := Option.some.inj hs
    subst hsome
    have hratings : ∀ o ∈ m :: rest,
        o.rating ∈ m.rating :: rest.map (fun x => x.rating) := by
      intro o ho
      rcases List.mem_cons.mp ho with rfl | ho
      · exact List.mem_cons_self _ _
      · exact List.mem_cons_of_mem _ (List.mem_map_of_mem _ ho)
    have hratings' : ∀ v ∈ m.rating :: rest.map (fun x => x.rating),
        ∃ o ∈ m :: rest, o.rating = v := by
      intro v hv
      rcases List.mem_cons.mp hv with rfl | hv
      · exact ⟨m, List.mem_cons_self _ _, rfl⟩
      · obtain ⟨o, ho, hov⟩ := List.mem_map.mp hv
        exact ⟨o, List.mem_cons_of_mem _ ho, hov⟩
    constructor
    · constructor
      · intro hrec
        have hp := List.mem_filter.mp hrec
        have hmax : rec.rating = maxRating (m :: rest) := of_decide_eq_true hp.2
        refine ⟨hp.1, fun o ho => ?_⟩
        rw [hmax]
        exact le_foldl_max _ _ _ (hratings o ho)
      · intro hub
        obtain ⟨hmem, hub⟩ := hub
        have h1 : rec.rating ≤ maxRating (m :: rest) :=
          le_foldl_max _ _ _ (hratings rec hmem)
        have h2 : maxRating (m :: rest) ≤ rec.rating := by
          obtain ⟨o, ho, hov⟩ :=
            hratings' (maxRating (m :: rest)) (foldl_max_mem _ _)
          rw [← hov]
          exact hub o ho
        exact List.mem_filter.mpr
          ⟨hmem, decide_eq_true (le_antisymm h1 h2)⟩
    · constructor
      · intro hrec
        have hp := List.mem_filter.mp hrec
        have hmin : rec.rating = minRating (m :: rest) := of_decide_eq_true hp.2
        refine ⟨hp.1, fun o ho => ?_⟩
        rw [hmin]
        exact foldl_min_le _ _ _ (hratings o ho)
      · intro hlb
        obtain ⟨hmem, hlb⟩ := hlb
        have h1 : minRating (m :: rest) ≤ rec.rating :=
          foldl_min_le _ _ _ (hratings rec hmem)
        have h2 : rec.rating ≤ minRating (m :: rest) := by
          obtain ⟨o, ho, hov⟩ :=
            hratings' (minRating (m :: rest)) (foldl_min_mem _ _)
          rw [← hov]
          exact hlb o ho
        exact List.mem_filter.mpr
          ⟨hmem, decide_eq_true (le_antisymm h2 h1)⟩

theorem stats_best_worst_ties_witness :
    stats tieMovies = some tieStats ∧
    ((tieA ∈ tieStats.best ↔
        tieA ∈ tieMovies ∧ ∀ o ∈ tieMovies, o.rating ≤ tieA.rating) ∧
      (tieA ∈ tieStats.worst ↔
        tieA ∈ tieMovies ∧ ∀ o ∈ tieMovies, tieA.rating ≤ o.rating)) :=
  ⟨rfl, stats_best_worst_ties tieMovies tieStats tieA rfl⟩

/-- C7: the ranker returns a permutation of the snapshot, descending by
rating, records of equal rating in snapshot order (the per-rating filters
coincide), the empty snapshot giving the empty sequence; on the spec's
example A:7, B:9, C:7 it returns B, A, C. -/
theorem rank_descending_stable (movies : Snapshot) :
    (movies_sorted_by_rating movies).Perm movies ∧
    (movies_sorted_by_rating movies).Pairwise
      (fun a b => b.rating ≤ a.rating) ∧
    (∀ v, (movies_sorted_by_rating movies).filter
        (fun m => decide (m.rating = v)) =
      movies.filter (fun m => decide (m.rating = v))) ∧
    movies_sorted_by_rating [] = ([] : Snapshot) ∧
    movies_sorted_by_rating demoABC = [demoB, demoA, demoC] :=
  ⟨sortDescBy_perm _ movies, sortDescBy_pairwise _ movies,
    fun v => filter_sortDescBy _ v movies, rfl, by decide⟩

/-- C8: on the empty snapshot `stats` fails on its first statement
(`sum(ratings) / len(ratings)` raises `ZeroDivisionError`) before printing
any statistic, and `random_movie` fails in `random.choice`
(`IndexError`) — both embedded as `none`: no zero default, no fabricated
record is ever produced. -/
theorem stats_random_empty_guard :
    stats [] = none ∧ ∀ i : Nat, random_movie [] i = none :=
  ⟨rfl, fun _ => rfl⟩

/-- C9: each core operation leaves the snapshot it receives unchanged (the
state-threaded forms return it as it came), and every record any result
carries is a record of the snapshot, fields untouched. -/
theorem core_ops_preserve_snapshot (score : String → String → Nat)
    (movies : Snapshot) (query : String) (i : Nat) :
    (search_movie_run score movies query).2 = movies ∧
    (stats_run movies).2 = movies ∧
    (movies_sorted_by_rating_run movies).2 = movies ∧
    (random_movie_run movies i).2 = movies ∧
    (∀ l, search_movie score movies query =
        some (SearchOutcome.Matches l) → ∀ r ∈ l, r ∈ movies) ∧
    (∀ s, stats movies = some s →
      (∀ r ∈ s.best, r ∈ movies) ∧ (∀ r ∈ s.worst, r ∈ movies)) ∧
    (∀ r ∈ movies_sorted_by_rating movies, r ∈ movies) ∧
    (∀ r, random_movie movies i = some r → r ∈ movies) := by
  refine ⟨rfl, rfl, rfl, rfl, ?_, ?_, ?_, ?_⟩
  · intro l hl r hr
    rw [search_movie_matches_inv hl] at hr
    exact List.mem_of_mem_filter hr
  · intro s hs
    rcases movies with _ | ⟨m, rest⟩
    · exact absurd hs (by simp [stats])
    · have hsome := Option.some.inj hs
      subst hsome
      refine ⟨fun r hr => ?_, fun r hr => ?_⟩
      · have hr2 : r ∈ (m :: rest).filter
            (fun x => decide (x.rating = maxRating (m :: rest))) := hr
        exact List.mem_of_mem_filter hr2
      · have hr2 : r ∈ (m :: rest).filter
            (fun x => decide (x.rating = minRating (m :: rest))) := hr
        exact List.mem_of_mem_filter hr2
  · intro r hr
    exact (sortDescBy_perm _ movies).subset hr
  · intro r hr
    exact List.getElem?_mem hr

end Movies
